import Mathlib

/-
Verification of the Glycofy browser UI's aggregation and export pipeline.

The definitions below are a shallow embedding of the JavaScript sources:
  - src/ui/plan-week.js   (aggregateIngredients, exportTxt, exportCsv, loadWeek)
  - src/unnamed/part_001  (buildCombinedGrocery, loadWeek)
  - src/ui/activities.js  (normalizeSport, aggregateClientSide)
  - src/ui/app.js         (fetchJSON, Unit)
  - src/ui/profile.js     (Unit)
JavaScript strings are Lean `String`s, JS numbers used by the claims are
modelled as `ℚ` (with NaN/null made explicit where a claim depends on them),
JS `Map`s are insertion-ordered association lists.
-/

namespace Glycofy

/-! ### JavaScript string primitives -/

/-- Whitespace characters removed by JS `String.prototype.trim` (the common
set: space, tab, LF, CR, VT, FF, NBSP, BOM). -/
def isJsSpace (c : Char) : Bool :=
  c = ' ' || c = '\t' || c = '\n' || c = '\r' ||
  c = Char.ofNat 11 || c = Char.ofNat 12 || c = Char.ofNat 160 || c = Char.ofNat 0xFEFF

/-- JS `s.trim()`: strip leading and trailing whitespace. -/
def jsTrim (s : String) : String :=
  ⟨((s.data.dropWhile isJsSpace).reverse.dropWhile isJsSpace).reverse⟩

/-- JS `s.toLowerCase()` (ASCII range, which is all the heuristics use). -/
def lowerStr (s : String) : String := ⟨s.data.map Char.toLower⟩

/-- Is `n` a prefix of `h` (character lists)? -/
def listPre : List Char → List Char → Bool
  | [], _ => true
  | _ :: _, [] => false
  | c :: cs, d :: ds => c = d && listPre cs ds

/-- Does `n` occur as a contiguous sublist of `h`? -/
def listSub : List Char → List Char → Bool
  | n, [] => n.isEmpty
  | n, h :: hs => listPre n (h :: hs) || listSub n hs

/-- JS `hay.includes(needle)`. -/
def strHas (hay needle : String) : Bool := listSub needle.data hay.data

/-- JS truthiness of an optional string (`undefined`, `null` and `""` are
falsy): the value when truthy, otherwise `none`. -/
def truthyOpt : Option String → Option String
  | some s => if s = "" then none else some s
  | none => none

/-! ### Grocery aggregation (src/ui/plan-week.js `aggregateIngredients`,
src/unnamed/part_001 `buildCombinedGrocery`)

Both loops run `const key = (raw || '').trim(); if (!key) continue;
counts.set(key, (counts.get(key) || 0) + 1)` over a JS `Map`.  A `Map.set` on
an existing key keeps its position; a new key is appended. -/

/-- `counts.set(key, (counts.get(key) || 0) + 1)` on an insertion-ordered
association list. -/
def bumpCount : List (String × Nat) → String → List (String × Nat)
  | [], k => [(k, 1)]
  | (k', c) :: rest, k =>
      if k' = k then (k', c + 1) :: rest else (k', c) :: bumpCount rest k

/-- One loop iteration: trim, skip empty, count. -/
def aggStep (m : List (String × Nat)) (raw : String) : List (String × Nat) :=
  let key := jsTrim raw
  if key = "" then m else bumpCount m key

/-- The trim–skip–count fold over a sequence of ingredient strings in
encounter order (the body shared by `aggregateIngredients` and
`buildCombinedGrocery`). -/
def aggregateStrings (l : List String) : List (String × Nat) :=
  l.foldl aggStep []

/-! Specification-side description of the same computation, written from the
spec's words: trim each string, drop empties, keys in first-seen order, each
key mapped to its number of occurrences. -/

/-- The trimmed, non-empty ingredient strings in encounter order. -/
def cleanedStrings (l : List String) : List String :=
  (l.map jsTrim).filter (fun s => decide (s ≠ ""))

/-- First-seen order of the distinct elements of `l`. -/
def firstSeen (l : List String) : List String :=
  l.foldl (fun acc k => if k ∈ acc then acc else acc ++ [k]) []

/-- Keys in first-seen order, each with its occurrence count. -/
def specAggMap (ws : List String) : List (String × Nat) :=
  (firstSeen ws).map (fun k => (k, ws.count k))

/-- Modelled from the spec: grocery aggregation as the spec describes it
(trim, drop empties, first-seen-ordered occurrence counts). -/
def specAggregate (l : List String) : List (String × Nat) :=
  specAggMap (cleanedStrings l)

/-! #### Lemmas relating the fold to the specification description -/

theorem firstSeen_aux_mem (ws : List String) :
    ∀ (acc : List String) (k : String),
      k ∈ ws.foldl (fun acc k => if k ∈ acc then acc else acc ++ [k]) acc ↔
        k ∈ acc ∨ k ∈ ws := by
  induction ws with
  | nil => intro acc k; simp
  | cons w ws ih =>
      intro acc k
      simp only [List.foldl_cons]
      by_cases hw : w ∈ acc
      · simp only [if_pos hw, ih]
        constructor
        · rintro (h | h)
          · exact Or.inl h
          · exact Or.inr (List.mem_cons_of_mem _ h)
        · rintro (h | h)
          · exact Or.inl h
          · rcases List.mem_cons.mp h with h | h
            · exact Or.inl (h ▸ hw)
            · exact Or.inr h
      · simp only [if_neg hw, ih, List.mem_append, List.mem_singleton, List.mem_cons]
        tauto

theorem mem_firstSeen (ws : List String) (k : String) :
    k ∈ firstSeen ws ↔ k ∈ ws := by
  unfold firstSeen
  rw [firstSeen_aux_mem]
  simp

theorem firstSeen_aux_nodup (ws : List String) :
    ∀ acc : List String,
      acc.Nodup →
      (ws.foldl (fun acc k => if k ∈ acc then acc else acc ++ [k]) acc).Nodup := by
  induction ws with
  | nil => intro acc h; simpa using h
  | cons w ws ih =>
      intro acc h
      simp only [List.foldl_cons]
      by_cases hw : w ∈ acc
      · rw [if_pos hw]; exact ih acc h
      · rw [if_neg hw]
        refine ih _ ?_
        simpa [List.nodup_append] using ⟨h, hw⟩

theorem firstSeen_nodup (ws : List String) : (firstSeen ws).Nodup :=
  firstSeen_aux_nodup ws [] List.nodup_nil

theorem firstSeen_append_singleton (ws : List String) (k : String) :
    firstSeen (ws ++ [k]) =
      if k ∈ firstSeen ws then firstSeen ws else firstSeen ws ++ [k] := by
  unfold firstSeen
  rw [List.foldl_append]
  rfl

theorem bumpCount_map_of_mem (f : String → Nat) (keys : List String) (k : String)
    (hmem : k ∈ keys) (hnd : keys.Nodup) :
    bumpCount (keys.map fun x => (x, f x)) k =
      keys.map fun x => (x, f x + if x = k then 1 else 0) := by
  induction keys with
  | nil => cases hmem
  | cons a keys ih =>
      rcases List.mem_cons.mp hmem with h | h
      · subst h
        have hka : k ∉ keys := (List.nodup_cons.mp hnd).1
        have htail : (List.map (fun x => (x, f x + if x = k then 1 else 0)) keys)
            = List.map (fun x => (x, f x)) keys := by
          refine List.map_congr_left ?_
          intro x hx
          have hxk : x ≠ k := fun hxa => hka (hxa ▸ hx)
          simp [hxk]
        simp [List.map_cons, bumpCount, htail]
      · have hne : a ≠ k := by
          rintro rfl
          exact (List.nodup_cons.mp hnd).1 h
        simp only [List.map_cons, bumpCount, if_neg hne]
        rw [ih h (List.nodup_cons.mp hnd).2]
        simp [hne]

theorem bumpCount_map_of_not_mem (f : String → Nat) (keys : List String) (k : String)
    (hmem : k ∉ keys) :
    bumpCount (keys.map fun x => (x, f x)) k =
      (keys.map fun x => (x, f x)) ++ [(k, 1)] := by
  induction keys with
  | nil => rfl
  | cons a keys ih =>
      have hne : a ≠ k := fun h => hmem (h ▸ List.mem_cons_self a keys)
      simp only [List.map_cons, bumpCount, if_neg hne, List.cons_append]
      rw [ih (fun h => hmem (List.mem_cons_of_mem _ h))]

theorem specAggMap_append_singleton (ws : List String) (k : String) :
    specAggMap (ws ++ [k]) = bumpCount (specAggMap ws) k := by
  unfold specAggMap
  rw [firstSeen_append_singleton]
  by_cases hk : k ∈ firstSeen ws
  · rw [if_pos hk]
    rw [bumpCount_map_of_mem (fun x => ws.count x) (firstSeen ws) k hk (firstSeen_nodup ws)]
    refine List.map_congr_left ?_
    intro x _
    rw [List.count_append]
    simp [List.count_singleton', eq_comm]
  · rw [if_neg hk]
    have hkw : k ∉ ws := fun h => hk ((mem_firstSeen ws k).mpr h)
    rw [List.map_append]
    rw [bumpCount_map_of_not_mem (fun x => ws.count x) (firstSeen ws) k hk]
    congr 1
    · refine List.map_congr_left ?_
      intro x hx
      have hxw : x ∈ ws := (mem_firstSeen ws x).mp hx
      have hxk : x ≠ k := fun h => hkw (h ▸ hxw)
      rw [List.count_append]
      simp [List.count_singleton', hxk]
    · have hz : List.count k ws = 0 := List.count_eq_zero.mpr hkw
      simp [List.count_append, List.count_singleton', hz]

theorem cleaned_append_singleton (l : List String) (x : String) :
    cleanedStrings (l ++ [x]) =
      cleanedStrings l ++ (if jsTrim x = "" then [] else [jsTrim x]) := by
  unfold cleanedStrings
  rw [List.map_append, List.filter_append]
  by_cases h : jsTrim x = "" <;> simp [h]

/-- The implementation fold equals the specification description. -/
theorem aggregateStrings_eq_spec (l : List String) :
    aggregateStrings l = specAggregate l := by
  induction l using List.reverseRecOn with
  | nil => rfl
  | append_singleton l x ih =>
      unfold aggregateStrings at ih ⊢
      rw [List.foldl_append, List.foldl_cons, List.foldl_nil]
      unfold specAggregate
      rw [cleaned_append_singleton]
      by_cases h : jsTrim x = ""
      · rw [if_pos h, List.append_nil]
        rw [ih]
        unfold aggStep
        rw [if_pos h]
        rfl
      · rw [if_neg h]
        rw [specAggMap_append_singleton]
        rw [ih]
        unfold aggStep
        rw [if_neg h]
        rfl

/-- Every key of the aggregated list is a non-empty trimmed string and its
count is at least one (indeed exactly its number of occurrences). -/
theorem aggregateStrings_mem_pos (l : List String) :
    ∀ kv ∈ aggregateStrings l, kv.1 ≠ "" ∧ 1 ≤ kv.2 := by
  intro kv hkv
  rw [aggregateStrings_eq_spec] at hkv
  unfold specAggregate specAggMap at hkv
  rcases List.mem_map.mp hkv with ⟨k, hk, rfl⟩
  have hkc : k ∈ cleanedStrings l := (mem_firstSeen _ k).mp hk
  constructor
  · have := List.of_mem_filter hkc
    simpa using this
  · have : 0 < (cleanedStrings l).count k := List.count_pos_iff.mpr hkc
    omega

/-! ### Day-plan records and the two grocery aggregators -/

/-- A meal record as the grocery code reads it: only the optional
`ingredients` array matters (`Array.isArray(m.ingredients)` guards access). -/
structure Meal where
  ingredients : Option (List String)
deriving DecidableEq

/-- A day-plan record as the grocery code reads it: an optional
`grocery_list` array and an optional `meals` array. -/
structure DayPlan where
  grocery_list : Option (List String)
  meals : Option (List Meal)
deriving DecidableEq

/-- src/ui/plan-week.js `aggregateIngredients(plans)`: nested loops over
`plans`, each plan's `meals`, and each meal's `ingredients` (when it is an
array), running the trim–skip–count step into one shared `Map`. -/
def aggregateIngredients (plans : List DayPlan) : List (String × Nat) :=
  plans.foldl
    (fun counts p =>
      (p.meals.getD []).foldl
        (fun counts m =>
          match m.ingredients with
          | some ings => ings.foldl aggStep counts
          | none => counts)
        counts)
    []

/-- src/unnamed/part_001 `buildCombinedGrocery`'s counting phase: a loop over
`plans` and each plan's `grocery_list || []`, running the trim–skip–count
step into one shared `Map`. -/
def buildCombinedGroceryCounts (plans : List DayPlan) : List (String × Nat) :=
  plans.foldl
    (fun items p => (p.grocery_list.getD []).foldl aggStep items)
    []

/-- The flattened per-meal ingredient strings of one plan, in encounter
order. -/
def mealsIngredients (p : DayPlan) : List String :=
  ((p.meals.getD []).map (fun m => m.ingredients.getD [])).flatten

/-- Modelled from the spec: the ingredient-string selection the claim
describes — `grocery_list` when present and, only if it is absent, the
flattened per-meal ingredients. -/
def claimC2Select (p : DayPlan) : List String :=
  match p.grocery_list with
  | some gl => gl
  | none => mealsIngredients p

theorem foldl_ext {α β : Type} (f g : β → α → β) (hfg : ∀ st a, f st a = g st a) :
    ∀ (l : List α) (init : β), l.foldl f init = l.foldl g init := by
  intro l
  induction l with
  | nil => intro init; rfl
  | cons a l ih =>
      intro init
      rw [List.foldl_cons, List.foldl_cons, hfg]
      exact ih _

theorem foldl_flatten_step {α : Type} (f : α → List String) :
    ∀ (l : List α) (init : List (String × Nat)),
      ((l.map f).flatten).foldl aggStep init =
        l.foldl (fun st x => (f x).foldl aggStep st) init := by
  intro l
  induction l with
  | nil => intro init; rfl
  | cons a l ih =>
      intro init
      simp only [List.map_cons, List.flatten_cons, List.foldl_append, List.foldl_cons]
      exact ih _

theorem aggregateIngredients_eq_fold (plans : List DayPlan) :
    aggregateIngredients plans = aggregateStrings ((plans.map mealsIngredients).flatten) := by
  unfold aggregateStrings
  rw [foldl_flatten_step mealsIngredients plans]
  unfold aggregateIngredients
  refine foldl_ext _ _ ?_ plans []
  intro st p
  unfold mealsIngredients
  rw [foldl_flatten_step (fun m => m.ingredients.getD []) (p.meals.getD [])]
  refine foldl_ext _ _ ?_ (p.meals.getD []) st
  intro st' m
  cases m.ingredients <;> rfl

theorem buildCombinedGroceryCounts_eq_fold (plans : List DayPlan) :
    buildCombinedGroceryCounts plans
      = aggregateStrings ((plans.map (fun p => p.grocery_list.getD [])).flatten) := by
  unfold aggregateStrings
  rw [foldl_flatten_step (fun p => p.grocery_list.getD []) plans]
  rfl

/-! ### Export utilities (src/ui/plan-week.js `exportTxt`, `exportCsv`)

Both build an array of lines with pushes and `join('\n')`; modelling the
pure string-producing part (the `download` side effect is presentation). -/

/-- One plain-text line: `` `- ${k}  x${v}` `` when `v > 1`, else `` `- ${k}` ``. -/
def txtLine (kv : String × Nat) : String :=
  if kv.2 > 1 then "- " ++ kv.1 ++ "  x" ++ toString kv.2 else "- " ++ kv.1

/-- `exportTxt`'s string: push one line per map entry, join with newline. -/
def exportTxtText (m : List (String × Nat)) : String :=
  String.intercalate "\n" (m.foldl (fun lines kv => lines ++ [txtLine kv]) [])

/-- JS `k.replace(/"/g, '""')`. -/
def escQuote (s : String) : String :=
  ⟨(s.data.map (fun c => if c = '"' then ['"', '"'] else [c])).flatten⟩

/-- One CSV row: the item double-quoted with internal quotes doubled, then a
comma and the count. -/
def csvLine (kv : String × Nat) : String :=
  "\"" ++ escQuote kv.1 ++ "\"" ++ "," ++ toString kv.2

/-- `exportCsv`'s string: the header `item,count` seeded first, then one
pushed row per entry, joined with newline. -/
def exportCsvText (m : List (String × Nat)) : String :=
  String.intercalate "\n" (m.foldl (fun lines kv => lines ++ [csvLine kv]) ["item,count"])

/-- Modelled from the spec: the text line as the claim words it — `- <item>`
when the count is 1, `- <item>  x<count>` when it is greater than 1. -/
def specTxtLine (kv : String × Nat) : String :=
  if kv.2 = 1 then "- " ++ kv.1 else "- " ++ kv.1 ++ "  x" ++ toString kv.2

/-- Modelled from the spec: one line per item in insertion order, joined by
a single newline. -/
def specToText (m : List (String × Nat)) : String :=
  String.intercalate "\n" (m.map specTxtLine)

/-- Modelled from the spec: header row, then one CSV row per item in
insertion order. -/
def specToCsv (m : List (String × Nat)) : String :=
  String.intercalate "\n" ("item,count" :: m.map csvLine)

theorem foldl_push {α β : Type} (f : α → β) (l : List α) :
    ∀ init : List β, l.foldl (fun acc a => acc ++ [f a]) init = init ++ l.map f := by
  induction l with
  | nil => intro init; simp
  | cons a l ih => intro init; simp [ih]

theorem exportTxtText_eq (m : List (String × Nat)) :
    exportTxtText m = String.intercalate "\n" (m.map txtLine) := by
  unfold exportTxtText
  rw [foldl_push txtLine m []]
  rfl

theorem exportCsvText_eq (m : List (String × Nat)) :
    exportCsvText m = String.intercalate "\n" ("item,count" :: m.map csvLine) := by
  unfold exportCsvText
  rw [foldl_push csvLine m ["item,count"]]
  rfl

/-! ### Sport normalization (src/ui/activities.js `normalizeSport`) -/

/-- An activity record with the fields `normalizeSport` and
`aggregateClientSide` read.  `type` and `name` default to `""` when absent
(the code reads them as `a.type || ''`, `a.name || ''`); `kcal` is `none`
when absent (read as `a.kcal || 0`). -/
structure Activity where
  sport_label : Option String
  sport : Option String
  type : String
  name : String
  distance_m : Int
  kcal : Option ℚ
  start_time : String
deriving DecidableEq

/-- The fixed lookup table object in `normalizeSport` (own keys only). -/
def sportTable : List (String × String) :=
  [("Run", "Running"), ("TrailRun", "Running"), ("Ride", "Cycling"),
   ("VirtualRide", "Cycling (Virtual)"), ("WeightTraining", "Strength"),
   ("StrengthTraining", "Strength"), ("Walk", "Walking"), ("Hike", "Hiking"),
   ("Swim", "Swimming"), ("Rowing", "Rowing"), ("IndoorCycling", "Cycling (Virtual)"),
   ("Crossfit", "CrossFit"), ("Yoga", "Yoga"), ("Elliptical", "Elliptical"),
   ("StairStepper", "Stair Stepper"), ("NordicSki", "Skiing"),
   ("AlpineSki", "Skiing"), ("Snowboard", "Snowboard")]

/-- First-match lookup in an association table. -/
def lookupStr : List (String × String) → String → Option String
  | [], _ => none
  | (a, b) :: rest, k => if a = k then some b else lookupStr rest k

/-- `name.includes('zwift') || name.includes('trainerroad') || name.includes('virtual')`. -/
def virtualName (name : String) : Bool :=
  strHas name "zwift" || strHas name "trainerroad" || strHas name "virtual"

/-- `name.includes('upper body') || name.includes('strength') || name.includes('core')`. -/
def strengthName (name : String) : Bool :=
  strHas name "upper body" || strHas name "strength" || strHas name "core"

/-- src/ui/activities.js `normalizeSport(a)`: a truthy `sport_label`/`sport`
string is returned as is; otherwise the trimmed `type` is looked up in the
table; otherwise empty/"Workout" types get the distance/name heuristics and
any other type passes through (`t || 'Workout'`). -/
def normalizeSport (a : Activity) : String :=
  match truthyOpt a.sport_label <|> truthyOpt a.sport with
  | some label => label
  | none =>
    let t := jsTrim a.type
    let name := lowerStr a.name
    match lookupStr sportTable t with
    | some v => v
    | none =>
      if t = "Workout" ∨ t = "" then
        if a.distance_m > 1000 then
          if virtualName name then "Cycling (Virtual)" else "Cycling"
        else if strengthName name then "Strength"
        else "Workout"
      else if t = "" then "Workout" else t

/-- Modelled from the spec: the claim's reading of sport normalization —
table value for mapped types, verbatim pass-through for unmapped non-empty
types, and for empty/"Workout" types the heuristics as the claim words
them: distance > 1000 with a virtual-sounding name gives the
virtual-cycling category, a strength-related name keyword gives
"Strength", and otherwise the result defaults to "Workout". -/
def claimC3Normalize (a : Activity) : String :=
  let t := jsTrim a.type
  match lookupStr sportTable t with
  | some v => v
  | none =>
    if t ≠ "" ∧ t ≠ "Workout" then t
    else
      let name := lowerStr a.name
      if a.distance_m > 1000 ∧ virtualName name then "Cycling (Virtual)"
      else if strengthName name then "Strength"
      else "Workout"

/-- Modelled from the spec, amended: a truthy pre-set `sport_label`/`sport`
is returned verbatim; otherwise mapped (trimmed) types get the table value,
unmapped non-empty non-"Workout" types pass through verbatim, and
empty/"Workout" types get the heuristics with their actual precedence:
distance > 1000 always classifies as cycling ("Cycling (Virtual)" with a
virtual-sounding name, plain "Cycling" otherwise), and only shorter
activities fall to the strength-keyword check and the "Workout" default. -/
def amendedNormalize (a : Activity) : String :=
  match truthyOpt a.sport_label <|> truthyOpt a.sport with
  | some label => label
  | none =>
    let t := jsTrim a.type
    if t ≠ "" ∧ t ≠ "Workout" then
      match lookupStr sportTable t with
      | some v => v
      | none => t
    else
      let name := lowerStr a.name
      if a.distance_m > 1000 then
        if virtualName name then "Cycling (Virtual)" else "Cycling"
      else if strengthName name then "Strength"
      else "Workout"

theorem normalizeSport_eq_amended (a : Activity) :
    normalizeSport a = amendedNormalize a := by
  unfold normalizeSport amendedNormalize
  cases hl : truthyOpt a.sport_label <|> truthyOpt a.sport with
  | some label => rfl
  | none =>
      simp only []
      by_cases ht : jsTrim a.type ≠ "" ∧ jsTrim a.type ≠ "Workout"
      · rw [if_pos ht]
        cases hlk : lookupStr sportTable (jsTrim a.type) with
        | some v => rfl
        | none =>
            have h1 : ¬(jsTrim a.type = "Workout" ∨ jsTrim a.type = "") := by
              rintro (h | h)
              · exact ht.2 h
              · exact ht.1 h
            rw [if_neg h1, if_neg ht.1]
      · rw [if_neg ht]
        have h2 : jsTrim a.type = "" ∨ jsTrim a.type = "Workout" := by tauto
        have hlk : lookupStr sportTable (jsTrim a.type) = none := by
          rcases h2 with h | h <;> rw [h] <;> rfl
        rw [hlk]
        have h1 : jsTrim a.type = "Workout" ∨ jsTrim a.type = "" := h2.symm
        rw [if_pos h1]

/-! ### Client-side day/sport aggregation (src/ui/activities.js
`aggregateClientSide`) -/

/-- `fmt.dateISO` on a string input: `d.slice(0, 10)`. -/
def fmtDateISO (s : String) : String := s.take 10

/-- JS `Math.round` on a finite number: half-up, i.e. `⌊q + 1/2⌋`, written
over the numerator and denominator so that it evaluates by reduction
(`jsRound_floor` below proves it equal to the floor form). -/
def jsRound (q : ℚ) : Int := Int.fdiv (2 * q.num + q.den) (2 * q.den)

theorem jsRound_floor (q : ℚ) : jsRound q = ⌊q + 1 / 2⌋ := by
  have hden : ((q.den : ℚ)) ≠ 0 := Nat.cast_ne_zero.mpr q.den_pos.ne'
  have hm : (q.num : ℚ) = q * (q.den : ℚ) :=
    (div_eq_iff hden).mp (Rat.num_div_den q)
  have hq : q + 1 / 2 = (((2 * q.num + (q.den : ℤ)) : ℤ) : ℚ) / (((2 * q.den : ℕ) : ℕ) : ℚ) := by
    have h2 : (((2 * q.den : ℕ) : ℕ) : ℚ) ≠ 0 := by positivity
    rw [eq_div_iff h2]
    push_cast
    linear_combination (-2 : ℚ) * hm
  rw [jsRound, hq, Rat.floor_intCast_div_natCast]
  rw [Int.fdiv_eq_ediv _ (by positivity)]
  push_cast
  ring_nf

/-- The calendar date of an activity, via `fmt.dateISO(a.start_time)`. -/
def dateOf (a : Activity) : String := fmtDateISO a.start_time

/-- Lexicographic `≤` on character lists: the JS relational comparison of
strings (code-unit order). -/
def charListLe : List Char → List Char → Bool
  | [], _ => true
  | _ :: _, [] => false
  | a :: as, b :: bs => if a < b then true else if b < a then false else charListLe as bs

/-- JS `a <= b` on strings (equivalently `b >= a`). -/
def strLeB (a b : String) : Bool := charListLe a.data b.data

theorem charListLe_total : ∀ as bs, charListLe as bs = true ∨ charListLe bs as = true := by
  intro as
  induction as with
  | nil => intro bs; exact Or.inl rfl
  | cons a as ih =>
      intro bs
      cases bs with
      | nil => exact Or.inr rfl
      | cons b bs =>
          rcases lt_trichotomy a b with h | h | h
          · left
            simp [charListLe, h]
          · subst h
            have hnlt : ¬ a < a := lt_irrefl a
            rcases ih bs with hab | hba
            · left; simp [charListLe, hnlt, hab]
            · right; simp [charListLe, hnlt, hba]
          · right
            simp [charListLe, h]

theorem charListLe_trans :
    ∀ as bs cs, charListLe as bs = true → charListLe bs cs = true →
      charListLe as cs = true := by
  intro as
  induction as with
  | nil => intro bs cs _ _; rfl
  | cons a as ih =>
      intro bs cs h1 h2
      cases bs with
      | nil => simp [charListLe] at h1
      | cons b bs =>
          cases cs with
          | nil => simp [charListLe] at h2
          | cons c cs =>
              rcases lt_trichotomy a b with hab | hab | hab
              · rcases lt_trichotomy b c with hbc | hbc | hbc
                · have hac : a < c := lt_trans hab hbc
                  simp [charListLe, hac]
                · subst hbc
                  simp [charListLe, hab]
                · exfalso
                  simp [charListLe, hbc, lt_asymm hbc] at h2
              · subst hab
                rcases lt_trichotomy a c with hac | hac | hac
                · simp [charListLe, hac]
                · subst hac
                  have hnlt : ¬ a < a := lt_irrefl a
                  simp [charListLe, hnlt] at h1 h2 ⊢
                  exact ih bs cs h1 h2
                · exfalso
                  simp [charListLe, hac, lt_asymm hac] at h2
              · exfalso
                simp [charListLe, hab, lt_asymm hab] at h1

/-- A per-day summary row (`by_sport` is the JS object used as an
insertion-ordered map; the derived `by_sport_text` display string is not
modelled). -/
structure DaySummary where
  date : String
  training_kcal : Int
  planned_kcal : Int
  by_sport : List (String × Int)
deriving DecidableEq

/-- The aggregation result object. -/
structure AggResult where
  total_training_kcal : Int
  total_planned_kcal : Int
  activity_count : Nat
  totals_by_sport : List (String × Int)
  days : List DaySummary
deriving DecidableEq

/-- The accumulators of `aggregateClientSide`'s `forEach` loop. -/
structure AggState where
  days : List DaySummary
  sports : List (String × Int)
  actCount : Nat
  totalK : Int
deriving DecidableEq

/-- `m.set(k, (m.get(k) || 0) + v)` on an insertion-ordered association
list: an existing key keeps its position, a new key is appended. -/
def bumpAdd : List (String × Int) → String → Int → List (String × Int)
  | [], k, v => [(k, v)]
  | (k', c) :: rest, k, v =>
      if k' = k then (k', c + v) :: rest else (k', c) :: bumpAdd rest k v

/-- `daysMap.get(date) || fresh`, then `d.training_kcal += kcal;
d.by_sport[sport] += kcal; daysMap.set(date, d)`. -/
def updateDays : List DaySummary → String → Int → String → List DaySummary
  | [], date, k, sport => [⟨date, k, 0, bumpAdd [] sport k⟩]
  | d :: rest, date, k, sport =>
      if d.date = date then
        ⟨d.date, d.training_kcal + k, d.planned_kcal, bumpAdd d.by_sport sport k⟩ :: rest
      else d :: updateDays rest date k sport

/-- The in-range test `within(dISO) = dISO >= fromISO && dISO <= toISO`,
on the activity's computed date. -/
def inRangeB (fromISO toISO : String) (a : Activity) : Bool :=
  strLeB fromISO (dateOf a) && strLeB (dateOf a) toISO

/-- One `forEach` iteration: skip activities outside `[fromISO, toISO]`
(string comparison), then accumulate the rounded kcal into the day map, the
sport map, the activity count and the running total. -/
def stepAgg (fromISO toISO : String) (st : AggState) (a : Activity) : AggState :=
  if inRangeB fromISO toISO a then
    let k := jsRound (a.kcal.getD 0)
    let sport := normalizeSport a
    { days := updateDays st.days (dateOf a) k sport
      sports := bumpAdd st.sports sport k
      actCount := st.actCount + 1
      totalK := st.totalK + k }
  else st

/-- The ascending-by-date relation the final `days.sort` uses. -/
def dayLe (x y : DaySummary) : Prop := strLeB x.date y.date = true

instance : DecidableRel dayLe := fun x y => inferInstanceAs (Decidable (strLeB x.date y.date = true))

instance : IsTotal DaySummary dayLe :=
  ⟨fun x y => charListLe_total x.date.data y.date.data⟩

instance : IsTrans DaySummary dayLe :=
  ⟨fun _ _ _ h₁ h₂ => charListLe_trans _ _ _ h₁ h₂⟩

/-- `Array.from(daysMap.values()).sort((a,b) => a.date < b.date ? -1 : 1)`:
the day dates are pairwise distinct map keys, so the JS sort produces the
unique ascending-by-date ordering, modelled by insertion sort. -/
def sortDays (l : List DaySummary) : List DaySummary := List.insertionSort dayLe l

/-- src/ui/activities.js `aggregateClientSide(items, fromISO, toISO)`. -/
def aggregateClientSide (items : List Activity) (fromISO toISO : String) : AggResult :=
  let st := items.foldl (stepAgg fromISO toISO) ⟨[], [], 0, 0⟩
  { total_training_kcal := st.totalK
    total_planned_kcal := 0
    activity_count := st.actCount
    totals_by_sport := st.sports
    days := sortDays st.days }

theorem foldl_stepAgg_filter (fromISO toISO : String) :
    ∀ (l : List Activity) (st : AggState),
      l.foldl (stepAgg fromISO toISO) st
        = (l.filter (inRangeB fromISO toISO)).foldl (stepAgg fromISO toISO) st := by
  intro l
  induction l with
  | nil => intro st; rfl
  | cons a l ih =>
      intro st
      cases hb : inRangeB fromISO toISO a with
      | true =>
          rw [List.foldl_cons]
          simp only [List.filter_cons, hb, if_true, List.foldl_cons]
          exact ih _
      | false =>
          rw [List.foldl_cons]
          simp only [List.filter_cons, hb, Bool.false_eq_true, if_false]
          have hskip : stepAgg fromISO toISO st a = st := by
            unfold stepAgg
            rw [hb]
            rfl
          rw [hskip]
          exact ih _

theorem foldl_stepAgg_count (fromISO toISO : String) :
    ∀ (l : List Activity) (st : AggState),
      (l.foldl (stepAgg fromISO toISO) st).actCount
        = st.actCount + (l.filter (inRangeB fromISO toISO)).length := by
  intro l
  induction l with
  | nil => intro st; simp
  | cons a l ih =>
      intro st
      cases hb : inRangeB fromISO toISO a with
      | true =>
          rw [List.foldl_cons]
          simp only [List.filter_cons, hb, if_true]
          rw [ih]
          have hc : (stepAgg fromISO toISO st a).actCount = st.actCount + 1 := by
            unfold stepAgg
            rw [hb]
            rfl
          rw [hc]
          simp [Nat.add_assoc, Nat.add_comm 1]
      | false =>
          rw [List.foldl_cons]
          simp only [List.filter_cons, hb, Bool.false_eq_true, if_false]
          have hskip : stepAgg fromISO toISO st a = st := by
            unfold stepAgg
            rw [hb]
            rfl
          rw [hskip]
          exact ih _

/-! #### Sum invariants preserved by the fold (for C10) -/

/-- Sum of the second components of an association list. -/
def sumSnd (m : List (String × Int)) : Int := (m.map Prod.snd).sum

/-- Sum of the per-day training kcal. -/
def sumTrain (ds : List DaySummary) : Int := (ds.map DaySummary.training_kcal).sum

theorem bumpAdd_sum (m : List (String × Int)) (k : String) (v : Int) :
    sumSnd (bumpAdd m k v) = sumSnd m + v := by
  induction m with
  | nil => simp [bumpAdd, sumSnd]
  | cons kv rest ih =>
      obtain ⟨k', c⟩ := kv
      unfold bumpAdd
      by_cases h : k' = k
      · rw [if_pos h]
        simp [sumSnd]
        ring
      · rw [if_neg h]
        simp only [sumSnd, List.map_cons, List.sum_cons] at ih ⊢
        rw [ih]
        ring

theorem updateDays_sumTrain (ds : List DaySummary) (date : String) (k : Int) (sport : String) :
    sumTrain (updateDays ds date k sport) = sumTrain ds + k := by
  induction ds with
  | nil => simp [updateDays, sumTrain]
  | cons d rest ih =>
      unfold updateDays
      by_cases h : d.date = date
      · rw [if_pos h]
        simp [sumTrain]
        ring
      · rw [if_neg h]
        simp only [sumTrain, List.map_cons, List.sum_cons] at ih ⊢
        rw [ih]
        ring

theorem updateDays_day_inv (ds : List DaySummary) (date : String) (k : Int) (sport : String)
    (hinv : ∀ d ∈ ds, d.training_kcal = sumSnd d.by_sport) :
    ∀ d ∈ updateDays ds date k sport, d.training_kcal = sumSnd d.by_sport := by
  induction ds with
  | nil =>
      intro d hd
      simp only [updateDays, List.mem_singleton] at hd
      subst hd
      simp [bumpAdd_sum, sumSnd, bumpAdd]
  | cons d0 rest ih =>
      intro d hd
      unfold updateDays at hd
      by_cases h : d0.date = date
      · rw [if_pos h] at hd
        rcases List.mem_cons.mp hd with hd | hd
        · subst hd
          have h0 : d0.training_kcal = sumSnd d0.by_sport :=
            hinv d0 (List.mem_cons_self d0 rest)
          simp [bumpAdd_sum, h0]
        · exact hinv d (List.mem_cons_of_mem _ hd)
      · rw [if_neg h] at hd
        rcases List.mem_cons.mp hd with hd | hd
        · subst hd
          exact hinv _ (List.mem_cons_self _ _)
        · exact ih (fun x hx => hinv x (List.mem_cons_of_mem _ hx)) d hd

/-- The three C10 sum invariants on the fold state. -/
def aggInv (st : AggState) : Prop :=
  st.totalK = sumTrain st.days ∧ st.totalK = sumSnd st.sports ∧
    ∀ d ∈ st.days, d.training_kcal = sumSnd d.by_sport

theorem foldl_stepAgg_inv (fromISO toISO : String) :
    ∀ (l : List Activity) (st : AggState),
      aggInv st → aggInv (l.foldl (stepAgg fromISO toISO) st) := by
  intro l
  induction l with
  | nil => intro st h; exact h
  | cons a l ih =>
      intro st h
      rw [List.foldl_cons]
      refine ih _ ?_
      cases hr : inRangeB fromISO toISO a with
      | true =>
          obtain ⟨h1, h2, h3⟩ := h
          unfold stepAgg
          rw [hr]
          simp only [if_true]
          refine ⟨?_, ?_, ?_⟩
          · simp only []
            rw [updateDays_sumTrain, ← h1]
          · simp only []
            rw [bumpAdd_sum, ← h2]
          · simp only []
            exact updateDays_day_inv _ _ _ _ h3
      | false =>
          unfold stepAgg
          rw [hr]
          simp only [Bool.false_eq_true, if_false]
          exact h

theorem sortDays_perm (l : List DaySummary) : List.Perm (sortDays l) l :=
  List.perm_insertionSort dayLe l

theorem sortDays_sorted (l : List DaySummary) :
    List.Pairwise dayLe (sortDays l) :=
  List.sorted_insertionSort dayLe l

/-! ### HTTP client adapter (src/ui/app.js `fetchJSON`) -/

/-- Hex digit character (uppercase), for percent-encoding. -/
def hexDigit (n : Nat) : Char :=
  if n < 10 then Char.ofNat ('0'.toNat + n) else Char.ofNat ('A'.toNat + n - 10)

/-- UTF-8 bytes of a character. -/
def utf8Bytes (c : Char) : List Nat :=
  let n := c.toNat
  if n < 0x80 then [n]
  else if n < 0x800 then [0xC0 + n / 0x40, 0x80 + n % 0x40]
  else if n < 0x10000 then
    [0xE0 + n / 0x1000, 0x80 + (n / 0x40) % 0x40, 0x80 + n % 0x40]
  else
    [0xF0 + n / 0x40000, 0x80 + (n / 0x1000) % 0x40, 0x80 + (n / 0x40) % 0x40,
     0x80 + n % 0x40]

/-- Characters `encodeURIComponent` leaves unescaped. -/
def uriUnreserved (c : Char) : Bool :=
  c.isAlpha || c.isDigit ||
    c = '-' || c = '_' || c = '.' || c = '!' || c = '~' || c = '*' ||
    c = Char.ofNat 39 || c = '(' || c = ')'

/-- JS `encodeURIComponent`. -/
def encodeComp (s : String) : String :=
  ⟨(s.data.map fun c =>
      if uriUnreserved c then [c]
      else (utf8Bytes c).map (fun b => ['%', hexDigit (b / 16), hexDigit (b % 16)]) |>.flatten).flatten⟩

/-- The parsed JSON error body, reduced to the two fields `fetchJSON` reads
(`data.detail`, `data.message`). -/
structure JsonBody where
  detail : Option String
  message : Option String
deriving DecidableEq

/-- A settled HTTP response as `fetchJSON` observes it: status, status text,
declared content type, the JSON parse result (`none` when `res.json()`
rejects), and the text body. -/
structure HttpResponse where
  status : Nat
  statusText : String
  contentType : String
  jsonBody : Option JsonBody
  textBody : String
deriving DecidableEq

/-- The outcome of one `fetchJSON` call: an `Unauthorized` failure after
setting `location.href` to the login redirect, a failure with a message, or
a successful JSON (possibly null) or text body. -/
inductive FetchResult where
  | unauthorized (redirect : String)
  | failed (msg : String)
  | jsonOk (body : Option JsonBody)
  | textOk (body : String)
deriving DecidableEq

/-- `` `${res.status} ${res.statusText}` ``. -/
def statusLine (res : HttpResponse) : String :=
  toString res.status ++ " " ++ res.statusText

/-- `ct.includes('application/json')`. -/
def jsonDeclared (res : HttpResponse) : Bool :=
  strHas res.contentType "application/json"

/-- `res.ok`: status in the 2xx range. -/
def resOk (res : HttpResponse) : Bool :=
  decide (200 ≤ res.status ∧ res.status ≤ 299)

/-- `` `/ui/login.html?return=${encodeURIComponent(location.pathname + location.search)}` ``. -/
def loginRedirect (path : String) : String :=
  "/ui/login.html?return=" ++ encodeComp path

/-- src/ui/app.js `fetchJSON`, from the response on: 401 first (redirect and
throw `Unauthorized`); then JSON content negotiation with
`data && (data.detail || data.message) || statusLine` as the error message
on non-2xx and a null body on parse failure; then the text branch with
`txt || statusLine` as the error message on non-2xx. -/
def fetchJSONModel (path : String) (res : HttpResponse) : FetchResult :=
  if res.status = 401 then .unauthorized (loginRedirect path)
  else if jsonDeclared res then
    if resOk res then .jsonOk res.jsonBody
    else
      let detail := res.jsonBody.bind fun b => truthyOpt b.detail <|> truthyOpt b.message
      .failed (detail.getD (statusLine res))
  else
    if resOk res then .textOk res.textBody
    else .failed (if res.textBody = "" then statusLine res else res.textBody)

/-- Modelled from the spec: the "server-provided detail message" of a
response — for a JSON body its truthy `detail` or `message` field, for a
text body the non-empty body itself. -/
def serverDetail (res : HttpResponse) : Option String :=
  if jsonDeclared res then
    res.jsonBody.bind fun b => truthyOpt b.detail <|> truthyOpt b.message
  else truthyOpt res.textBody

/-! ### Unit conversion (src/ui/app.js `Unit`, src/ui/profile.js `Unit`) -/

/-- A JS value as the unit converters receive it: missing (`null` or
`undefined`), `NaN`, or a finite number. -/
inductive JsVal where
  | null
  | nan
  | num (q : ℚ)
deriving DecidableEq

/-- Pounds per kilogram, 2.2046226218. -/
def lbPerKg : ℚ := 22046226218 / 10000000000

/-- Centimeters per inch, 2.54. -/
def cmPerIn : ℚ := 254 / 100

/-- `Number.EPSILON` = 2^-52. -/
def epsQ : ℚ := 1 / 2 ^ 52

/-- JS `ToNumber` on these values: `null` coerces to 0, `NaN` stays `NaN`. -/
def toNumberJs : JsVal → JsVal
  | .null => .num 0
  | .nan => .nan
  | .num q => .num q

/-- app.js `Unit.kgToLb: kg => (kg != null ? (kg * 2.2046226218) : null)`;
`NaN` is not `null`, so it propagates through the arithmetic as `NaN`. -/
def appKgToLb : JsVal → JsVal
  | .null => .null
  | .nan => .nan
  | .num q => .num (q * lbPerKg)

/-- app.js `Unit.lbToKg: lb => (lb != null ? (lb / 2.2046226218) : null)`. -/
def appLbToKg : JsVal → JsVal
  | .null => .null
  | .nan => .nan
  | .num q => .num (q / lbPerKg)

/-- app.js `Unit.cmToIn: cm => (cm != null ? (cm / 2.54) : null)`. -/
def appCmToIn : JsVal → JsVal
  | .null => .null
  | .nan => .nan
  | .num q => .num (q / cmPerIn)

/-- app.js `Unit.inToCm: inch => (inch != null ? (inch * 2.54) : null)`. -/
def appInToCm : JsVal → JsVal
  | .null => .null
  | .nan => .nan
  | .num q => .num (q * cmPerIn)

/-- app.js `Unit.round1: n => Math.round((n + Number.EPSILON) * 10) / 10` —
no missing-input guard: `null` coerces to 0 in the addition. -/
def appRound1 (v : JsVal) : JsVal :=
  match toNumberJs v with
  | .nan => .nan
  | .num q => .num ((jsRound ((q + epsQ) * 10) : ℚ) / 10)
  | .null => .null

/-- app.js `Unit.round0: n => Math.round(n)` — no missing-input guard:
`Math.round(null)` is 0. -/
def appRound0 (v : JsVal) : JsVal :=
  match toNumberJs v with
  | .nan => .nan
  | .num q => .num (jsRound q)
  | .null => .null

/-- profile.js `Unit.kgToLb: kg => (kg == null || isNaN(kg) ? null : kg * 2.2046226218)`. -/
def profKgToLb : JsVal → JsVal
  | .null => .null
  | .nan => .null
  | .num q => .num (q * lbPerKg)

/-- profile.js `Unit.lbToKg`. -/
def profLbToKg : JsVal → JsVal
  | .null => .null
  | .nan => .null
  | .num q => .num (q / lbPerKg)

/-- profile.js `Unit.cmToIn`. -/
def profCmToIn : JsVal → JsVal
  | .null => .null
  | .nan => .null
  | .num q => .num (q / cmPerIn)

/-- profile.js `Unit.inToCm`. -/
def profInToCm : JsVal → JsVal
  | .null => .null
  | .nan => .null
  | .num q => .num (q * cmPerIn)

/-- profile.js `Unit.round1: n => (n == null || isNaN(n) ? '' : Math.round(n * 10) / 10)`;
`none` models the empty-string no-value result. -/
def profRound1 : JsVal → Option ℚ
  | .null => none
  | .nan => none
  | .num q => some ((jsRound (q * 10) : ℚ) / 10)

/-- The value is not a (finite) number. -/
def noNum (v : JsVal) : Prop := ∀ q : ℚ, v ≠ .num q

/-- Modelled from the spec: the C9 claim — every conversion and rounding
function of both `Unit` objects yields an explicit no-value result (never a
number) on a missing or non-numeric input. -/
def ClaimC9 : Prop :=
  (noNum (appKgToLb .null) ∧ noNum (appKgToLb .nan)) ∧
  (noNum (appLbToKg .null) ∧ noNum (appLbToKg .nan)) ∧
  (noNum (appCmToIn .null) ∧ noNum (appCmToIn .nan)) ∧
  (noNum (appInToCm .null) ∧ noNum (appInToCm .nan)) ∧
  (noNum (appRound0 .null) ∧ noNum (appRound0 .nan)) ∧
  (noNum (appRound1 .null) ∧ noNum (appRound1 .nan)) ∧
  (noNum (profKgToLb .null) ∧ noNum (profKgToLb .nan)) ∧
  (noNum (profLbToKg .null) ∧ noNum (profLbToKg .nan)) ∧
  (noNum (profCmToIn .null) ∧ noNum (profCmToIn .nan)) ∧
  (noNum (profInToCm .null) ∧ noNum (profInToCm .nan)) ∧
  (profRound1 .null = none ∧ profRound1 .nan = none)

/-! ### Week loader interleaving (src/ui/plan-week.js `loadWeek`,
src/unnamed/part_001 `loadWeek`)

`loadWeek` clears the grid synchronously when triggered, awaits the seven
day fetches, and on completion appends its day cards to the grid and
unconditionally assigns `window.__glyco_weekPlans = plans`.  There is no
request/generation token, so completions apply in arrival order. -/

/-- The page state `loadWeek` mutates: the rendered grid and the stored
`window.__glyco_weekPlans`. -/
structure WeekView where
  grid : List DayPlan
  weekPlans : List DayPlan
deriving DecidableEq

/-- An observable `loadWeek` event: a trigger (which clears the grid before
awaiting) or the arrival of a load's fetched plans. -/
inductive WeekEv where
  | started
  | completed (plans : List DayPlan)
deriving DecidableEq

/-- The effect of one event on the page state, exactly as the handler is
written: no staleness check on completion. -/
def weekStep (s : WeekView) : WeekEv → WeekView
  | .started => { s with grid := [] }
  | .completed plans => { grid := s.grid ++ plans, weekPlans := plans }

/-- Run a schedule of `loadWeek` events from the initial empty page. -/
def runWeek (evs : List WeekEv) : WeekView := evs.foldl weekStep ⟨[], []⟩

/-! ### Claim theorems -/

/-- Claim C1: for every sequence of ingredient strings in encounter order,
grocery aggregation trims each string, drops strings that trim to empty,
and maps each remaining string case-sensitively to its occurrence count
with keys in first-seen order; aggregating
`["Eggs", "eggs ", "Eggs", "Milk"]` yields `{"Eggs": 2, "eggs": 1,
"Milk": 1}` in that insertion order, and every output key is non-empty with
count at least 1. -/
theorem claim_c1_grocery_aggregation :
    (∀ l : List String,
        aggregateStrings l = specAggregate l ∧
          ∀ kv ∈ aggregateStrings l, kv.1 ≠ "" ∧ 1 ≤ kv.2) ∧
      aggregateStrings ["Eggs", "eggs ", "Eggs", "Milk"]
        = [("Eggs", 2), ("eggs", 1), ("Milk", 1)] :=
  ⟨fun l => ⟨aggregateStrings_eq_spec l, aggregateStrings_mem_pos l⟩, by decide⟩

/-- Witness for C1 at the concrete input `["Milk"]` and its single entry. -/
theorem claim_c1_grocery_aggregation_witness :
    (("Milk", 1) : String × Nat).1 ≠ "" ∧ 1 ≤ (("Milk", 1) : String × Nat).2 :=
  (claim_c1_grocery_aggregation.1 ["Milk"]).2 ("Milk", 1) (by decide)

/-- Counterexample to claim C2: a record with no `grocery_list` but with
per-meal ingredients `["Milk"]` contributes nothing to
`buildCombinedGrocery`, while the claimed selection (grocery list
preferred, meal ingredients as fallback) would count the milk. -/
theorem claim_c2_counterexample :
    buildCombinedGroceryCounts [⟨none, some [⟨some ["Milk"]⟩]⟩]
      ≠ aggregateStrings
          (([(⟨none, some [⟨some ["Milk"]⟩]⟩ : DayPlan)].map claimC2Select).flatten) := by
  decide

/-- Claim C2 (amended): the two grocery aggregators each use a single fixed
source of ingredient strings — `buildCombinedGrocery` reads only each
record's `grocery_list` (a record without one contributes nothing, even
when meal ingredients are present), and `aggregateIngredients` reads only
the flattened per-meal ingredients (ignoring `grocery_list` entirely); each
equals the trim–skip–count fold over the strings it selects. -/
theorem claim_c2_amended (plans : List DayPlan) :
    buildCombinedGroceryCounts plans
        = aggregateStrings ((plans.map (fun p => p.grocery_list.getD [])).flatten)
      ∧ aggregateIngredients plans
        = aggregateStrings ((plans.map mealsIngredients).flatten) :=
  ⟨buildCombinedGroceryCounts_eq_fold plans, aggregateIngredients_eq_fold plans⟩

/-- Counterexample to claim C3: an unlabeled activity with empty type,
distance 5000 and the non-virtual, non-strength name "Morning Run" is
normalized to "Cycling" by the code, while the claim's heuristics
(virtual-name check, strength-name check, otherwise default "Workout")
would give "Workout". -/
theorem claim_c3_counterexample :
    normalizeSport ⟨none, none, "", "Morning Run", 5000, none, "2024-01-06T08:00:00Z"⟩
        = "Cycling"
      ∧ claimC3Normalize ⟨none, none, "", "Morning Run", 5000, none, "2024-01-06T08:00:00Z"⟩
        = "Workout"
      ∧ ("Cycling" : String) ≠ "Workout" := by
  decide

/-- Claim C3 (amended): absent a truthy pre-set `sport_label`/`sport`
string (which is returned verbatim), normalization maps table types to
their fixed labels, passes unmapped non-empty types through verbatim, and
for empty/"Workout" types applies the heuristics with their actual
precedence: distance > 1000 m always classifies as cycling — "Cycling
(Virtual)" when the lowercased name contains "zwift"/"trainerroad"/
"virtual", plain "Cycling" otherwise — and only shorter activities fall to
the strength-keyword check ("upper body"/"strength"/"core" gives
"Strength") and the "Workout" default.  In particular type "Ride" maps to
"Cycling" and type "" with distance 5000 and name "Zwift Ride" maps to
"Cycling (Virtual)". -/
theorem claim_c3_amended :
    (∀ a : Activity, normalizeSport a = amendedNormalize a)
      ∧ normalizeSport ⟨none, none, "Ride", "", 0, none, ""⟩ = "Cycling"
      ∧ normalizeSport ⟨none, none, "", "Zwift Ride", 5000, none, ""⟩ = "Cycling (Virtual)" :=
  ⟨normalizeSport_eq_amended, by decide, by decide⟩

/-- Claim C4: day/sport aggregation counts exactly the activities whose
`dateISO`-computed date lies in the inclusive range (out-of-range
activities contribute to nothing: the result equals the result on the
in-range sublist, and `activity_count` is the number of in-range records),
and the returned day summaries are ordered ascending by date string. -/
theorem claim_c4_range_and_order (items : List Activity) (fromISO toISO : String) :
    aggregateClientSide items fromISO toISO
        = aggregateClientSide (items.filter (inRangeB fromISO toISO)) fromISO toISO
      ∧ (aggregateClientSide items fromISO toISO).activity_count
        = (items.filter (inRangeB fromISO toISO)).length
      ∧ List.Pairwise (fun x y : String => strLeB x y = true)
          ((aggregateClientSide items fromISO toISO).days.map DaySummary.date) := by
  refine ⟨?_, ?_, ?_⟩
  · unfold aggregateClientSide
    rw [foldl_stepAgg_filter]
  · show (items.foldl (stepAgg fromISO toISO) ⟨[], [], 0, 0⟩).actCount
      = (items.filter (inRangeB fromISO toISO)).length
    rw [foldl_stepAgg_count]
    simp
  · unfold aggregateClientSide
    simp only []
    refine List.Pairwise.map DaySummary.date ?_ (sortDays_sorted _)
    intro x y h
    exact h

/-- Claim C5: the plain-text export of a grocery aggregation produces
exactly one line per item in insertion order — `- <item>` when the count is
1 and `- <item>  x<count>` when it is greater — joined by a single newline;
`{"Eggs": 2, "Milk": 1}` produces `"- Eggs  x2\n- Milk"`. -/
theorem claim_c5_export_txt :
    (∀ l : List String, exportTxtText (aggregateStrings l) = specToText (aggregateStrings l))
      ∧ exportTxtText [("Eggs", 2), ("Milk", 1)] = "- Eggs  x2\n- Milk" := by
  constructor
  · intro l
    rw [exportTxtText_eq]
    unfold specToText
    congr 1
    refine List.map_congr_left ?_
    intro kv hkv
    have h := aggregateStrings_mem_pos l kv hkv
    unfold txtLine specTxtLine
    rcases Nat.lt_or_ge 1 kv.2 with hgt | hle
    · rw [if_pos hgt, if_neg (by omega)]
    · have h1 : kv.2 = 1 := by omega
      rw [if_neg (by omega), if_pos h1]
  · decide

/-- Claim C6: the CSV export produces the header `item,count` followed by
one row per item in insertion order, the item double-quoted with internal
quotes doubled and the count a plain integer; `{'Item "A"': 1}` produces
`item,count\n"Item ""A""",1`. -/
theorem claim_c6_export_csv :
    (∀ m : List (String × Nat), exportCsvText m = specToCsv m)
      ∧ exportCsvText [("Item \"A\"", 1)] = "item,count\n\"Item \"\"A\"\"\",1" :=
  ⟨fun m => exportCsvText_eq m, by decide⟩

/-- Claim C7: `fetchJSON` fails with `Unauthorized` (after initiating the
login redirect carrying the current path) exactly when the status is 401;
on any other non-2xx status it fails with the server-provided detail
message when one is present and the status line otherwise; and a 2xx
JSON-declared response whose body fails to parse yields a null body, not a
failure. -/
theorem claim_c7_fetch_errors (path : String) (res : HttpResponse) :
    (fetchJSONModel path res = .unauthorized (loginRedirect path) ↔ res.status = 401)
      ∧ (res.status ≠ 401 → ¬(200 ≤ res.status ∧ res.status ≤ 299) →
          fetchJSONModel path res = .failed ((serverDetail res).getD (statusLine res)))
      ∧ (200 ≤ res.status ∧ res.status ≤ 299 → jsonDeclared res = true →
          res.jsonBody = none → fetchJSONModel path res = .jsonOk none) := by
  refine ⟨⟨?_, ?_⟩, ?_, ?_⟩
  · intro h
    by_contra hne
    unfold fetchJSONModel at h
    rw [if_neg hne] at h
    cases hjd : jsonDeclared res <;> rw [hjd] at h <;>
      cases hok : resOk res <;> simp [hok] at h
  · intro h
    unfold fetchJSONModel
    rw [if_pos h]
  · intro h401 hnok
    have hok : resOk res = false := by
      unfold resOk
      exact decide_eq_false hnok
    unfold fetchJSONModel serverDetail
    rw [if_neg h401]
    cases hjd : jsonDeclared res
    · simp only [hjd, Bool.false_eq_true, if_false, hok]
      by_cases htb : res.textBody = ""
      · simp [truthyOpt, htb]
      · simp [truthyOpt, htb]
    · simp [hjd, hok]
  · intro hok hjd hb
    have hne : res.status ≠ 401 := by omega
    unfold fetchJSONModel
    rw [if_neg hne, hjd]
    have h : resOk res = true := by
      unfold resOk
      exact decide_eq_true hok
    simp [h, hb]

/-- Witness for C7 at a concrete 404 JSON response carrying a `message`. -/
theorem claim_c7_fetch_errors_witness :
    fetchJSONModel "/ui/plan.html"
        ⟨404, "Not Found", "application/json", some ⟨none, some "plan not found"⟩, ""⟩
      = .failed "plan not found" := by
  have h :=
    (claim_c7_fetch_errors "/ui/plan.html"
        ⟨404, "Not Found", "application/json", some ⟨none, some "plan not found"⟩, ""⟩).2.1
      (by decide) (by decide)
  exact h.trans (by decide)

/-- Claim C8 (code bug): `loadWeek` has no request/generation token, so a
stale load's completion overwrites the newer load's state.  Schedule: an
older load starts, a newer load starts, the newer load's plans (milk)
arrive and render, then the older load's plans (eggs) arrive — the final
stored week plans are the stale ones and the stale cards are appended
after the newer ones. -/
theorem claim_c8_stale_overwrite :
    (runWeek [.started, .started,
        .completed [⟨some ["Milk"], none⟩], .completed [⟨some ["Eggs"], none⟩]]).weekPlans
        = [⟨some ["Eggs"], none⟩]
      ∧ ([(⟨some ["Eggs"], none⟩ : DayPlan)] ≠ [(⟨some ["Milk"], none⟩ : DayPlan)]) := by
  decide

/-- Counterexample to claim C9: app.js's `Unit.round0` has no missing-input
guard — `Math.round(null)` coerces to 0, a numeric default indistinguishable
from a true zero — so not every conversion/rounding function returns an
explicit no-value result on missing or non-numeric input. -/
theorem claim_c9_counterexample : ¬ ClaimC9 := by
  intro h
  have h9 : noNum (appRound0 .null) := h.2.2.2.2.1.1
  exact h9 0 (by decide)

/-- Claim C9 (amended): profile.js's `Unit` returns an explicit no-value
(`null`, or the empty string for `round1`) on missing and NaN inputs in
every function; app.js's four conversion functions return `null` only for
missing inputs and propagate NaN; and app.js's rounding functions have no
guard at all — a missing input coerces to 0 and yields the number 0. -/
theorem claim_c9_amended :
    (appKgToLb .null = .null ∧ appKgToLb .nan = .nan) ∧
    (appLbToKg .null = .null ∧ appLbToKg .nan = .nan) ∧
    (appCmToIn .null = .null ∧ appCmToIn .nan = .nan) ∧
    (appInToCm .null = .null ∧ appInToCm .nan = .nan) ∧
    (appRound0 .null = .num 0 ∧ appRound0 .nan = .nan) ∧
    (appRound1 .null = .num 0 ∧ appRound1 .nan = .nan) ∧
    (profKgToLb .null = .null ∧ profKgToLb .nan = .null) ∧
    (profLbToKg .null = .null ∧ profLbToKg .nan = .null) ∧
    (profCmToIn .null = .null ∧ profCmToIn .nan = .null) ∧
    (profInToCm .null = .null ∧ profInToCm .nan = .null) ∧
    (profRound1 .null = none ∧ profRound1 .nan = none) := by
  refine ⟨⟨rfl, rfl⟩, ⟨rfl, rfl⟩, ⟨rfl, rfl⟩, ⟨rfl, rfl⟩, ⟨by decide, rfl⟩, ⟨?_, rfl⟩,
    ⟨rfl, rfl⟩, ⟨rfl, rfl⟩, ⟨rfl, rfl⟩, ⟨rfl, rfl⟩, ⟨rfl, rfl⟩⟩
  show JsVal.num ((jsRound ((0 + epsQ) * 10) : ℚ) / 10) = JsVal.num 0
  have h : jsRound ((0 + epsQ) * 10) = 0 := by
    rw [jsRound_floor]
    norm_num [epsQ]
  rw [h]
  norm_num

/-- Claim C10: the client-side aggregation result is internally
consistent — `total_training_kcal` equals both the sum of the per-day
training kcal and the sum over `totals_by_sport`; each day's
`training_kcal` equals the sum of its `by_sport` values; and
`activity_count` is the number of in-range input records. -/
theorem claim_c10_invariants (items : List Activity) (fromISO toISO : String) :
    (aggregateClientSide items fromISO toISO).total_training_kcal
        = sumTrain (aggregateClientSide items fromISO toISO).days
      ∧ (aggregateClientSide items fromISO toISO).total_training_kcal
        = sumSnd (aggregateClientSide items fromISO toISO).totals_by_sport
      ∧ (∀ d ∈ (aggregateClientSide items fromISO toISO).days,
          d.training_kcal = sumSnd d.by_sport)
      ∧ (aggregateClientSide items fromISO toISO).activity_count
        = (items.filter (inRangeB fromISO toISO)).length := by
  have hinv : aggInv (items.foldl (stepAgg fromISO toISO) ⟨[], [], 0, 0⟩) := by
    refine foldl_stepAgg_inv fromISO toISO items ⟨[], [], 0, 0⟩ ⟨rfl, rfl, ?_⟩
    intro d hd
    cases hd
  obtain ⟨h1, h2, h3⟩ := hinv
  refine ⟨?_, ?_, ?_, ?_⟩
  · unfold aggregateClientSide
    simp only []
    have hperm :=
      (sortDays_perm (items.foldl (stepAgg fromISO toISO) ⟨[], [], 0, 0⟩).days).map
        DaySummary.training_kcal
    unfold sumTrain
    rw [List.Perm.sum_eq hperm]
    exact h1
  · unfold aggregateClientSide
    simp only []
    exact h2
  · unfold aggregateClientSide
    simp only []
    intro d hd
    have hmem :=
      (sortDays_perm (items.foldl (stepAgg fromISO toISO) ⟨[], [], 0, 0⟩).days).mem_iff.mp hd
    exact h3 d hmem
  · unfold aggregateClientSide
    simp only []
    rw [foldl_stepAgg_count]
    simp

/-- Witness for C10 at one concrete in-range running activity. -/
theorem claim_c10_invariants_witness :
    (⟨"2024-01-02", 100, 0, [("Running", 100)]⟩ : DaySummary).training_kcal
      = sumSnd (⟨"2024-01-02", 100, 0, [("Running", 100)]⟩ : DaySummary).by_sport :=
  (claim_c10_invariants [⟨none, none, "Run", "", 0, some 100, "2024-01-02T08:00:00Z"⟩]
      "2024-01-01" "2024-12-31").2.2.1
    ⟨"2024-01-02", 100, 0, [("Running", 100)]⟩ (by decide)

end Glycofy
